import Mathlib

/-!
# Verification of the FRACTURA.Δ02 pipeline (src/fractura.py)

A shallow embedding of the text-processing pipeline in `src/fractura.py`:
the report writers (`SymbolExtractor._write_symbols_file`,
`MantraExtractor._write_mantras_file`), the report reader
(`GlitchChantGenerator._load_extracted_content`), the glitch decoration
(`GlitchChantGenerator._create_glitched_fusion`), the JSON field gatherers
(`SymbolExtractor._gather_all_symbols`, `MantraExtractor._gather_all_mantras`),
and the orchestrator (`FracturaOrchestrator.run_complete_ritual`).

Text is modelled one line at a time as a `List Char` (no content string in the
claims contains an embedded newline, and the Python code writes and reads the
files line by line).  A file is a `List Line`; a missing or unreadable file is
`Option.none`.  Python exceptions are modelled with `Except`.
-/

namespace Fractura

/-- One line of text, as its list of characters. -/
abbrev Line := List Char

/-- The characters Python `str.strip()` and `str.split()` treat as
whitespace: the ASCII control whitespace, the file/group/record/unit
separators, and the Unicode space characters. -/
def pyWhitespaceChars : List Char :=
  ['\t', '\n', '\x0b', '\x0c', '\r', '\x1c', '\x1d', '\x1e', '\x1f', ' ',
   '\x85', '\xa0', '\u1680', '\u2000', '\u2001', '\u2002', '\u2003', '\u2004',
   '\u2005', '\u2006', '\u2007', '\u2008', '\u2009', '\u200a', '\u2028',
   '\u2029', '\u202f', '\u205f', '\u3000']

/-- Python whitespace test, as `str.strip()` and `str.split()` use it. -/
def isWS (c : Char) : Bool := decide (c ∈ pyWhitespaceChars)

/-- Drop leading whitespace (Python `str.lstrip`). -/
def stripLeft (l : Line) : Line := l.dropWhile isWS

/-- Drop trailing whitespace (Python `str.rstrip`). -/
def stripRight (l : Line) : Line := (l.reverse.dropWhile isWS).reverse

/-- Python `str.strip()`. -/
def pyStrip (l : Line) : Line := stripRight (stripLeft l)

/-- Python `line.split(". ", 1)`: split at the first occurrence of the
separator dot-space, if any.  `some (a, b)` means `line = a ++ ". " ++ b`
with the separator not occurring in `a` at an earlier position. -/
def splitFirst : Line → Option (Line × Line)
  | [] => none
  | c :: rest =>
    if c = '.' ∧ rest.head? = some ' ' then some ([], rest.tail)
    else
      match splitFirst rest with
      | some (a, b) => some (c :: a, b)
      | none => none

/-- Python `str.isdigit()` on the numbering prefix (the prefixes the writer
produces consist of ASCII digits). -/
def isDigits (l : Line) : Bool := !l.isEmpty && l.all Char.isDigit

/-- The header / separator / footer marker prefixes skipped by
`_load_extracted_content` (lines 290-296 of src/fractura.py).  The second
marker is the key emoji followed by the variation selector U+FE0F, exactly
the two code points of the `"🗝️"` literal in the source. -/
def markers : List Line :=
  [['🔮'], ['🗝', '\uFE0F'], ['='], ['-', '-', '-'],
   'E' :: "xtraction générée".data, 'T' :: "otal:".data]

/-- True when the (already stripped) line begins with one of the markers. -/
def isMarker (l : Line) : Bool := markers.any (fun m => m.isPrefixOf l)

/-- The per-line filtering and de-numbering step of
`GlitchChantGenerator._load_extracted_content`: strip the line, drop it when
it is blank or begins with a marker, otherwise remove a leading
`"<digits>. "` numbering prefix when present. -/
def processLine (raw : Line) : Option Line :=
  if (pyStrip raw).isEmpty then none
  else if isMarker (pyStrip raw) then none
  else
    match splitFirst (pyStrip raw) with
    | some (a, b) => if isDigits (pyStrip a) then some b else some (pyStrip raw)
    | none => some (pyStrip raw)

/-- `GlitchChantGenerator._load_extracted_content`.  `none` models the file
being absent or unreadable (both the missing-file branch and the exception
handler return the empty list). -/
def load_extracted_content (file : Option (List Line)) : List Line :=
  match file with
  | none => []
  | some lines => lines.filterMap processLine

/-- The character for a decimal digit value (helper for rendering numbers the
way Python `str` does). -/
def digitChar (n : Nat) : Char :=
  if n = 0 then '0' else if n = 1 then '1' else if n = 2 then '2'
  else if n = 3 then '3' else if n = 4 then '4' else if n = 5 then '5'
  else if n = 6 then '6' else if n = 7 then '7' else if n = 8 then '8'
  else '9'

/-- Fuel-driven decimal rendering: with fuel exceeding `n` this is the usual
most-significant-first digit expansion. -/
def natCharsAux : Nat → Nat → Line
  | 0, _ => []
  | fuel + 1, n =>
    if n < 10 then [digitChar n]
    else natCharsAux fuel (n / 10) ++ [digitChar (n % 10)]

/-- The decimal digits of `n` (Python `str` of a nonnegative int). -/
def natChars (n : Nat) : Line := natCharsAux (n + 1) n

/-- Python format `i:2d`: right-aligned in width two, padded with a space. -/
def fmt2 (i : Nat) : Line := if i < 10 then ' ' :: natChars i else natChars i

/-- The numbered entry lines the writers produce, numbering from `i`
(the source enumerates from 1). -/
def numberLines : Nat → List Line → List Line
  | _, [] => []
  | i, s :: rest => (fmt2 i ++ '.' :: ' ' :: s) :: numberLines (i + 1) rest

/-- The timestamp line `"Extraction générée le: <ts>"` of both writers. -/
def genLine (ts : Line) : Line := "Extraction générée le:".data ++ ' ' :: ts

/-- The footer line `"--- Total: <count> <suffix>"` of both writers, where
`suffix` is `"symboles ---"` or `"éléments narratifs ---"`. -/
def footerLine (count : Nat) (suffix : Line) : Line :=
  "--- Total:".data ++ ' ' :: natChars count ++ ' ' :: suffix

/-- `SymbolExtractor._write_symbols_file`: the list of lines of the produced
report.  `ts` is the (newline-free) timestamp text from `datetime.now`. -/
def write_symbols_file (symbols : List Line) (ts : Line) : List Line :=
  "🔮 Symboles analysés dans FRACTURA.Δ02".data ::
  List.replicate 50 '=' ::
  [] ::
  genLine ts ::
  [] ::
  (numberLines 1 symbols ++
    [[], footerLine symbols.length "symboles ---".data])

/-- `MantraExtractor._write_mantras_file`: same layout with the mantra header
and footer texts. -/
def write_mantras_file (mantras : List Line) (ts : Line) : List Line :=
  "🗝️ Mantras extraits de FRACTURA.Δ02".data ::
  List.replicate 50 '=' ::
  [] ::
  genLine ts ::
  [] ::
  (numberLines 1 mantras ++
    [[], footerLine mantras.length "éléments narratifs ---".data])

/-- A content string that is nonempty with no trailing whitespace.  (Leading
whitespace is harmless: the reader's strip stops at the digits of the
numbering prefix and the split returns everything after the first `". "`
verbatim, so a leading-whitespace entry round-trips exactly.) -/
def goodContent (s : Line) : Bool :=
  match s.getLast? with
  | some d => !isWS d
  | none => false

/-! ### The glitch decoration (`GlitchChantGenerator._create_glitched_fusion`) -/

/-- `self.glitch_symbols` (line 252 of src/fractura.py): the fixed 8-glyph
vocabulary, each glyph a one-character string. -/
def glitch_symbols : List Line := [['☿'], ['☄'], ['⚡'], ['◊'], ['∞'], ['△'], ['☆'], ['◈']]

/-- `self.glitch_symbols[k]` for an in-range index `k`. -/
def glyphAt (k : Nat) : Line := glitch_symbols.getD k []

/-- The leading glitch cluster of the `i % 4 == 1` branch: the glyphs at
indices `j % 8` for `j in range(i % 3 + 1)`, concatenated with no
separator. -/
def glitchCluster (i : Nat) : Line :=
  ((List.range (i % 3 + 1)).map (fun j => glyphAt (j % 8))).flatten

/-- Python `str.split()`: split on runs of whitespace, dropping empty words.
`acc` holds the characters of the word in progress, reversed. -/
def splitWSAux : Line → Line → List Line
  | [], acc => if acc.isEmpty then [] else [acc.reverse]
  | c :: rest, acc =>
    if isWS c then
      if acc.isEmpty then splitWSAux rest [] else acc.reverse :: splitWSAux rest []
    else splitWSAux rest (c :: acc)

/-- Python `line.split()`. -/
def pySplit (l : Line) : List Line := splitWSAux l []

/-- Python `list.insert(n, x)` for `0 ≤ n ≤ len`. -/
def insertAt (n : Nat) (x : α) (l : List α) : List α := l.take n ++ x :: l.drop n

/-- One iteration of the decoration loop of `_create_glitched_fusion`
(lines 324-347 of src/fractura.py), at post-shuffle index `i`. -/
def glitchLine (i : Nat) (line : Line) : Line :=
  if i % 4 == 0 then
    glyphAt (i % 8) ++ ' ' :: line ++ ' ' :: glyphAt (i % 8)
  else if i % 4 == 1 then
    glitchCluster i ++ ' ' :: line
  else if i % 4 == 2 then
    line ++ ' ' :: glyphAt ((8 - i % 8) % 8)
  else
    let words := pySplit line
    if words.length > 2 then
      List.intercalate [' '] (insertAt (words.length / 2) (glyphAt (i % 8)) words)
    else line

/-- The `for i, line in enumerate(glitch_content)` decoration loop, with the
enumeration counter starting at `i`. -/
def glitchLoop : Nat → List Line → List Line
  | _, [] => []
  | i, l :: ls => glitchLine i l :: glitchLoop (i + 1) ls

/-- `GlitchChantGenerator._create_glitched_fusion`, given the post-shuffle
order of the combined content (`random.shuffle` is modelled by quantifying
over permutations of the input where a claim needs it). -/
def create_glitched_fusion (shuffled : List Line) : List Line :=
  if shuffled.isEmpty then [] else glitchLoop 0 shuffled

/-- The four decoration rules exactly as §4.5 of the specification states
them, selected by `i mod 4` over the same fixed 8-glyph vocabulary. -/
def specDecorate (i : Nat) (line : Line) : Line :=
  match i % 4 with
  | 0 => glyphAt (i % 8) ++ [' '] ++ line ++ [' '] ++ glyphAt (i % 8)
  | 1 => ((List.range (i % 3 + 1)).map (fun j => glyphAt (j % 8))).flatten ++ [' '] ++ line
  | 2 => line ++ [' '] ++ glyphAt ((8 - i % 8) % 8)
  | _ =>
    let ws := pySplit line
    if 2 < ws.length then
      List.intercalate [' '] (insertAt (ws.length / 2) (glyphAt (i % 8)) ws)
    else line

/-! ### The heap model for the fusion frame property

A Python variable holding a list is a reference into a heap of list objects;
`content.copy()` allocates a fresh cell and `random.shuffle` mutates the cell
it is given in place.  This lets the no-mutation claim about
`_create_glitched_fusion` be stated as a frame condition. -/

/-- A heap of list-of-line objects, addressed by position. -/
abbrev Heap := List (List Line)

/-- `_create_glitched_fusion` with the heap made explicit: read the argument
cell, return early when it is empty, otherwise allocate a fresh cell for
`glitch_content = content.copy()`, mutate only that fresh cell with
`shuffle(glitch_content)`, and decorate.  Returns the final heap and the
returned list value. -/
def create_glitched_fusion_heap (h : Heap) (contentRef : Nat)
    (shuffleOf : List Line → List Line) : Heap × List Line :=
  let content := h.getD contentRef []
  if content.isEmpty then (h, [])
  else
    let gRef := h.length
    let h1 := h ++ [content]
    let h2 := h1.set gRef (shuffleOf (h1.getD gRef []))
    (h2, glitchLoop 0 (h2.getD gRef []))

/-! ### The parsed JSON document and the field gatherers

`json.load` returns nested dicts, lists, strings and numbers; the
configuration file of this program never carries booleans, nulls or
non-integer numbers, so those are left out of the model.  Python exceptions
raised by operations on wrongly-typed values are modelled with `Except`. -/

/-- The Python exceptions the gatherers can raise. -/
inductive PyErr where
  | attributeError
  | typeError
deriving DecidableEq

/-- A parsed JSON value. -/
inductive JValue where
  | str (s : List Char)
  | num (n : Int)
  | list (items : List JValue)
  | obj (fields : List (List Char × JValue))

/-- The JSON field names the gatherers read. -/
def kSymbolicAnalysis : List Char := "symbolic_analysis".data

/-- The `symbols` key. -/
def kSymbols : List Char := "symbols".data

/-- The `aesthetic_techniques` key. -/
def kAesthetic : List Char := "aesthetic_techniques".data

/-- The `narrative_structures` key. -/
def kNarrative : List Char := "narrative_structures".data

/-- The `mantras` key. -/
def kMantras : List Char := "mantras".data

/-- The `archetype` key. -/
def kArchetype : List Char := "archetype".data

/-- The `techniques` key. -/
def kTechniques : List Char := "techniques".data

/-- First-match association lookup in a dict's fields. -/
def lookupField (fields : List (List Char × JValue)) (key : List Char) : Option JValue :=
  match fields with
  | [] => none
  | (k, v) :: rest => if k = key then some v else lookupField rest key

/-- Python `v.get(key, default)`: a dict lookup with a default; on a non-dict
receiver the attribute access `.get` raises `AttributeError`. -/
def pyGet (v : JValue) (key : List Char) (dflt : JValue) : Except PyErr JValue :=
  match v with
  | .obj fields => .ok ((lookupField fields key).getD dflt)
  | _ => .error .attributeError

/-- Python iteration over a value, as `list.extend` and `for` use it: lists
yield their items, strings yield their characters as one-character strings,
dicts yield their keys; numbers are not iterable (`TypeError`). -/
def pyIter (v : JValue) : Except PyErr (List JValue) :=
  match v with
  | .list xs => .ok xs
  | .str s => .ok (s.map (fun c => .str [c]))
  | .obj fields => .ok (fields.map (fun kv => .str kv.1))
  | .num _ => .error .typeError

/-- Python truthiness of a JSON value (`if not data`, `if archetype`). -/
def pyTruthy (v : JValue) : Bool :=
  match v with
  | .str s => !s.isEmpty
  | .num n => n != 0
  | .list xs => !xs.isEmpty
  | .obj fields => !fields.isEmpty

/-- Equality as Python's `set` membership test sees it on the hashable values
of the model (strings and ints compare by value; values of different kinds
compare unequal). -/
def primBeq : JValue → JValue → Bool
  | .str a, .str b => decide (a = b)
  | .num a, .num b => decide (a = b)
  | _, _ => false

/-- Whether a value can be put in a Python `set` (lists and dicts are
unhashable and make the membership test raise `TypeError`). -/
def pyHashable : JValue → Bool
  | .str _ => true
  | .num _ => true
  | .list _ => false
  | .obj _ => false

/-- The duplicate-removal loop of `_gather_all_symbols` (lines 137-142 of
src/fractura.py): walk the list, keep a value when it is not in the `seen`
set, add it to `seen`.  The membership test on an unhashable value raises
`TypeError`. -/
def gatherDedup (seen : List JValue) : List JValue → Except PyErr (List JValue)
  | [] => .ok []
  | x :: xs =>
    if pyHashable x then
      if seen.any (primBeq x) then gatherDedup seen xs
      else
        match gatherDedup (x :: seen) xs with
        | .error e => .error e
        | .ok rest => .ok (x :: rest)
    else .error .typeError

/-- `SymbolExtractor._gather_all_symbols`: read
`symbolic_analysis.symbols` and `symbolic_analysis.aesthetic_techniques`
(defaulting to empty containers), extend in that order, then deduplicate
preserving first-seen order. -/
def gather_all_symbols (data : JValue) : Except PyErr (List JValue) :=
  match pyGet data kSymbolicAnalysis (.obj []) with
  | .error e => .error e
  | .ok symbolicAnalysis =>
    match pyGet symbolicAnalysis kSymbols (.list []) with
    | .error e => .error e
    | .ok symbols =>
      match pyIter symbols with
      | .error e => .error e
      | .ok symbolItems =>
        match pyGet symbolicAnalysis kAesthetic (.list []) with
        | .error e => .error e
        | .ok aesthetic =>
          match pyIter aesthetic with
          | .error e => .error e
          | .ok aestheticItems => gatherDedup [] (symbolItems ++ aestheticItems)

/-- The decimal rendering of a Python int. -/
def intChars (n : Int) : List Char :=
  if n < 0 then '-' :: natChars n.natAbs else natChars n.toNat

/-- The apostrophe character (Python repr quotes strings with it). -/
def quoteChar : Char := Char.ofNat 39

mutual

/-- Python `str(v)` as an f-string renders it: strings verbatim, ints in
decimal, lists and dicts via the repr of their elements.  (Escaping of
quotes inside nested strings is not modelled; no claim touches it.) -/
def pyStrOf : JValue → List Char
  | .str s => s
  | .num n => intChars n
  | .list xs => '[' :: reprItems xs ++ [']']
  | .obj fields => Char.ofNat 123 :: reprFields fields ++ [Char.ofNat 125]

/-- Python `repr(v)`: like `str` except strings are quoted. -/
def pyReprOf : JValue → List Char
  | .str s => quoteChar :: s ++ [quoteChar]
  | .num n => intChars n
  | .list xs => '[' :: reprItems xs ++ [']']
  | .obj fields => Char.ofNat 123 :: reprFields fields ++ [Char.ofNat 125]

/-- Comma-separated reprs of list items. -/
def reprItems : List JValue → List Char
  | [] => []
  | [x] => pyReprOf x
  | x :: xs => pyReprOf x ++ ',' :: ' ' :: reprItems xs

/-- Comma-separated `key: value` reprs of dict fields. -/
def reprFields : List (List Char × JValue) → List Char
  | [] => []
  | [(k, v)] => quoteChar :: k ++ quoteChar :: ':' :: ' ' :: pyReprOf v
  | (k, v) :: fs =>
    quoteChar :: k ++ quoteChar :: ':' :: ' ' :: pyReprOf v ++ ',' :: ' ' :: reprFields fs

end

/-- `MantraExtractor._gather_all_mantras`: read `narrative_structures.mantras`
verbatim (no deduplication), append one `[ARCHETYPE]` line when the archetype
is truthy, then one `[TECHNIQUE]` line per technique, in source order. -/
def gather_all_mantras (data : JValue) : Except PyErr (List JValue) :=
  match pyGet data kNarrative (.obj []) with
  | .error e => .error e
  | .ok narrative =>
    match pyGet narrative kMantras (.list []) with
    | .error e => .error e
    | .ok mantras =>
      match pyIter mantras with
      | .error e => .error e
      | .ok mantraItems =>
        match pyGet narrative kArchetype (.str []) with
        | .error e => .error e
        | .ok archetype =>
          match pyGet narrative kTechniques (.list []) with
          | .error e => .error e
          | .ok techniques =>
            match pyIter techniques with
            | .error e => .error e
            | .ok techniqueItems =>
              .ok ((if pyTruthy archetype then
                  mantraItems ++ [.str ("[ARCHETYPE] ".data ++ pyStrOf archetype)]
                else mantraItems) ++
                techniqueItems.map (fun t => .str ("[TECHNIQUE] ".data ++ pyStrOf t)))

/-- `SymbolExtractor.extract_symbols`.  `loaded` is what `load_json_data`
returned (`none` when it caught a load error and returned `None`); `writeOk`
is whether the file write inside `_write_symbols_file`'s `try` succeeded
(that method catches its own exceptions and returns a bool). -/
def extract_symbols (loaded : Option JValue) (writeOk : Bool) : Except PyErr Bool :=
  match loaded with
  | none => .ok false
  | some data =>
    if !pyTruthy data then .ok false
    else
      match gather_all_symbols data with
      | .error e => .error e
      | .ok symbols =>
        if symbols.isEmpty then .ok false
        else .ok writeOk

/-- `MantraExtractor.extract_mantras`, modelled like `extract_symbols`. -/
def extract_mantras (loaded : Option JValue) (writeOk : Bool) : Except PyErr Bool :=
  match loaded with
  | none => .ok false
  | some data =>
    if !pyTruthy data then .ok false
    else
      match gather_all_mantras data with
      | .error e => .error e
      | .ok mantras =>
        if mantras.isEmpty then .ok false
        else .ok writeOk

/-- A list value all of whose items are strings (or the key absent). -/
def isStrListOpt : Option JValue → Bool
  | none => true
  | some (.list xs) => xs.all (fun v => match v with | .str _ => true | _ => false)
  | some _ => false

/-- A string value (or the key absent). -/
def isStrOpt : Option JValue → Bool
  | none => true
  | some (.str _) => true
  | some _ => false

/-- A loaded document whose fields, where present, have the shapes §6 of the
specification documents: the two sections are dicts, the four list fields are
lists of strings, the archetype is a string. -/
def wellTypedDoc (data : JValue) : Bool :=
  match data with
  | .obj fields =>
    (match lookupField fields kSymbolicAnalysis with
     | none => true
     | some (.obj sf) =>
       isStrListOpt (lookupField sf kSymbols) &&
       isStrListOpt (lookupField sf kAesthetic)
     | some _ => false) &&
    (match lookupField fields kNarrative with
     | none => true
     | some (.obj nf) =>
       isStrListOpt (lookupField nf kMantras) &&
       isStrOpt (lookupField nf kArchetype) &&
       isStrListOpt (lookupField nf kTechniques)
     | some _ => false)
  | _ => false

/-- First-seen-order deduplication as §4.2 of the specification states it:
keep each entry and delete every later entry equal to it. -/
def specDedup : List JValue → List JValue
  | [] => []
  | x :: xs => x :: specDedup (xs.filter (fun y => !primBeq x y))
termination_by l => l.length
decreasing_by
  simp only [List.length_cons]
  exact Nat.lt_succ_of_le (List.length_filter_le _ _)

/-! ### The orchestrator -/

/-- The three pipeline stages. -/
inductive Stage where
  | symbols
  | mantras
  | chant
deriving DecidableEq

/-- The orchestrator's observable state: which stages have been attempted, in
order, and the running success tally. -/
structure RitualState where
  executed : List Stage
  successCount : Nat

/-- One `if stage(): success_count += 1` step of `run_complete_ritual`:
the stage is attempted (appended to the trace) whatever its outcome. -/
def runStep (outcome : Stage → Bool) (st : Stage) (s : RitualState) : RitualState :=
  { executed := s.executed ++ [st],
    successCount := if outcome st then s.successCount + 1 else s.successCount }

/-- `FracturaOrchestrator.run_complete_ritual` (lines 392-432 of
src/fractura.py), abstracted over the per-stage outcomes: run the three steps
in sequence with no short-circuit, then report success iff the tally is 3. -/
def run_complete_ritual (outcome : Stage → Bool) : RitualState × Bool :=
  let s1 := runStep outcome .symbols ⟨[], 0⟩
  let s2 := runStep outcome .mantras s1
  let s3 := runStep outcome .chant s2
  (s3, s3.successCount == 3)

/-- A document whose symbolic section carries the given symbols and aesthetic
techniques. -/
def symDoc (xs ys : List JValue) : JValue :=
  .obj [(kSymbolicAnalysis,
    .obj [(kSymbols, .list xs), (kAesthetic, .list ys)])]

/-- A document whose narrative section carries the given mantras, archetype
string and techniques. -/
def narDoc (ms : List JValue) (a : List Char) (ts : List JValue) : JValue :=
  .obj [(kNarrative,
    .obj [(kMantras, .list ms), (kArchetype, .str a),
      (kTechniques, .list ts)])]

/-! ### Stripping and digit lemmas -/

theorem not_ws_of_digit {c : Char} (h : c.isDigit = true) : isWS c = false := by
  cases hb : isWS c
  · rfl
  · exfalso
    have hmem : c ∈ pyWhitespaceChars := by simpa [isWS] using hb
    fin_cases hmem <;> exact absurd h (by decide)

theorem digitChar_isDigit (n : Nat) : (digitChar n).isDigit = true := by
  unfold digitChar
  repeat' split
  all_goals decide

theorem natCharsAux_spec :
    ∀ fuel n, n < fuel →
      natCharsAux fuel n ≠ [] ∧ ∀ c ∈ natCharsAux fuel n, c.isDigit = true := by
  intro fuel
  induction fuel with
  | zero => intro n h; omega
  | succ f ih =>
    intro n h
    by_cases h10 : n < 10
    · refine ⟨by simp [natCharsAux, h10], ?_⟩
      intro c hc
      simp [natCharsAux, h10] at hc
      subst hc
      exact digitChar_isDigit n
    · have hlt : n / 10 < n := Nat.div_lt_self (by omega) (by decide)
      have hrec := ih (n / 10) (by omega)
      simp only [natCharsAux, if_neg h10]
      refine ⟨by simp, ?_⟩
      intro c hc
      rcases List.mem_append.mp hc with hc | hc
      · exact hrec.2 c hc
      · simp at hc; subst hc; exact digitChar_isDigit _

theorem natChars_ne_nil (n : Nat) : natChars n ≠ [] :=
  (natCharsAux_spec (n + 1) n (by omega)).1

theorem natChars_all_digit {n : Nat} : ∀ c ∈ natChars n, c.isDigit = true :=
  (natCharsAux_spec (n + 1) n (by omega)).2

theorem stripLeft_cons_of_not_ws {c : Char} {l : Line} (h : isWS c = false) :
    stripLeft (c :: l) = c :: l := by
  simp [stripLeft, List.dropWhile_cons, h]

theorem stripLeft_cons_ws {c : Char} {l : Line} (h : isWS c = true) :
    stripLeft (c :: l) = stripLeft l := by
  simp [stripLeft, List.dropWhile_cons, h]

theorem stripRight_concat_of_not_ws {l : Line} {c : Char} (h : isWS c = false) :
    stripRight (l ++ [c]) = l ++ [c] := by
  simp [stripRight, List.dropWhile_cons, h]

theorem stripRight_append (a b : Line) :
    stripRight (a ++ b) =
      if stripRight b = [] then stripRight a else a ++ stripRight b := by
  by_cases hb : stripRight b = []
  · rw [if_pos hb]
    have hbe : (b.reverse.dropWhile isWS).isEmpty = true := by
      simp only [stripRight] at hb
      simpa [List.isEmpty_iff] using congrArg List.reverse hb
    unfold stripRight
    rw [List.reverse_append, List.dropWhile_append, if_pos hbe]
  · rw [if_neg hb]
    have hbe : (b.reverse.dropWhile isWS).isEmpty = false := by
      simp only [stripRight] at hb
      rcases hbne : (b.reverse.dropWhile isWS).isEmpty with _ | _
      · rfl
      · exact absurd (by simp [List.isEmpty_iff.mp hbne]) hb
    unfold stripRight
    rw [List.reverse_append, List.dropWhile_append, if_neg (by simp [hbe])]
    rw [List.reverse_append, List.reverse_reverse]

theorem goodContent_ne_nil {s : Line} (h : goodContent s = true) : s ≠ [] := by
  intro hnil
  subst hnil
  simp [goodContent] at h

theorem goodContent_last {s : Line} {d : Char} (h : goodContent s = true)
    (hd : s.getLast? = some d) : isWS d = false := by
  unfold goodContent at h
  rw [hd] at h
  simpa using h

theorem pyStrip_eq_self {l : Line} {c d : Char} (hh : l.head? = some c)
    (hc : isWS c = false) (hl : l.getLast? = some d) (hd : isWS d = false) :
    pyStrip l = l := by
  have hdecomp : l.dropLast ++ [d] = l := List.dropLast_append_getLast? d hl
  have hsl : stripLeft l = l := by
    cases l with
    | nil => simp at hh
    | cons x xs =>
      have hx : x = c := by simpa using hh
      subst hx
      exact stripLeft_cons_of_not_ws hc
  unfold pyStrip
  rw [hsl, ← hdecomp]
  exact stripRight_concat_of_not_ws hd

/-! ### splitFirst lemmas -/

theorem splitFirst_no_dot {a : Line} (b : Line) (ha : ∀ c ∈ a, c ≠ '.') :
    splitFirst (a ++ '.' :: ' ' :: b) = some (a, b) := by
  induction a with
  | nil => simp [splitFirst]
  | cons c a ih =>
    have hc : c ≠ '.' := ha c (by simp)
    rw [List.cons_append, splitFirst]
    rw [if_neg (by intro hand; exact hc hand.1)]
    rw [ih (fun x hx => ha x (by simp [hx]))]

theorem splitFirst_some {l a b : Line} (h : splitFirst l = some (a, b)) :
    l = a ++ '.' :: ' ' :: b := by
  induction l generalizing a b with
  | nil => simp [splitFirst] at h
  | cons c rest ih =>
    rw [splitFirst] at h
    by_cases hcond : c = '.' ∧ rest.head? = some ' '
    · rw [if_pos hcond] at h
      obtain ⟨hdot, hsp⟩ := hcond
      subst hdot
      cases rest with
      | nil => simp at hsp
      | cons x xs =>
        have hx : x = ' ' := by simpa using hsp
        subst hx
        simp only [List.tail_cons, Option.some.injEq, Prod.mk.injEq] at h
        obtain ⟨ha, hb⟩ := h
        subst ha
        subst hb
        rfl
    · rw [if_neg hcond] at h
      cases hsf : splitFirst rest with
      | none => rw [hsf] at h; exact absurd h (by simp)
      | some p =>
        obtain ⟨a', b'⟩ := p
        rw [hsf] at h
        simp only [Option.some.injEq, Prod.mk.injEq] at h
        obtain ⟨ha, hb⟩ := h
        subst ha
        subst hb
        rw [ih hsf]
        rfl

/-! ### Marker lemmas -/

theorem beq_eq_false_of_isDigit {c m : Char} (hc : c.isDigit = true)
    (hm : m.isDigit = false) : (m == c) = false := by
  apply beq_eq_false_iff_ne.mpr
  intro h
  subst h
  rw [hc] at hm
  exact absurd hm (by simp)

theorem isMarker_cons_digit {c : Char} {l : Line} (hc : c.isDigit = true) :
    isMarker (c :: l) = false := by
  have h1 : ('🔮' == c) = false := beq_eq_false_of_isDigit hc (by decide)
  have h2 : ('🗝' == c) = false := beq_eq_false_of_isDigit hc (by decide)
  have h3 : ('=' == c) = false := beq_eq_false_of_isDigit hc (by decide)
  have h4 : ('-' == c) = false := beq_eq_false_of_isDigit hc (by decide)
  have h5 : ('E' == c) = false := beq_eq_false_of_isDigit hc (by decide)
  have h6 : ('T' == c) = false := beq_eq_false_of_isDigit hc (by decide)
  simp [isMarker, markers, List.isPrefixOf, h1, h2, h3, h4, h5, h6]

theorem isMarker_of_mem_prefix {m l : Line} (hm : m ∈ markers)
    (h : m.isPrefixOf l = true) : isMarker l = true := by
  unfold isMarker
  rw [List.any_eq_true]
  exact ⟨m, hm, h⟩

theorem isPrefixOf_append {p a : Line} (r : Line) (h : p.isPrefixOf a = true) :
    p.isPrefixOf (a ++ r) = true := by
  rw [List.isPrefixOf_iff_prefix] at h ⊢
  exact h.trans (List.prefix_append a r)

/-! ### processLine on the writers' lines -/

theorem processLine_eq_none_of_marker {l : Line} (h : isMarker (pyStrip l) = true) :
    processLine l = none := by
  unfold processLine
  by_cases he : (pyStrip l).isEmpty
  · rw [if_pos he]
  · rw [if_neg he, if_pos h]

theorem processLine_genLine (ts : Line) : processLine (genLine ts) = none := by
  apply processLine_eq_none_of_marker
  have hsl : stripLeft (genLine ts) = genLine ts :=
    stripLeft_cons_of_not_ws (c := 'E')
      (l := "xtraction générée le:".data ++ ' ' :: ts) (by decide)
  unfold pyStrip
  rw [hsl]
  show isMarker (stripRight ("Extraction générée le:".data ++ ' ' :: ts)) = true
  rw [stripRight_append]
  by_cases hb : stripRight (' ' :: ts) = []
  · rw [if_pos hb]; decide
  · rw [if_neg hb]
    exact isMarker_of_mem_prefix (m := 'E' :: "xtraction générée".data) (by decide)
      (isPrefixOf_append _ (by decide))

theorem processLine_footerLine (n : Nat) (s0 : Line) :
    processLine (footerLine n (s0 ++ ['-'])) = none := by
  apply processLine_eq_none_of_marker
  have hform : footerLine n (s0 ++ ['-'])
      = ("--- Total:".data ++ (' ' :: natChars n) ++ (' ' :: s0)) ++ ['-'] := by
    unfold footerLine
    simp
  have hsl : stripLeft (footerLine n (s0 ++ ['-'])) = footerLine n (s0 ++ ['-']) :=
    stripLeft_cons_of_not_ws (c := '-')
      (l := "-- Total:".data ++ (' ' :: natChars n) ++ (' ' :: (s0 ++ ['-'])))
      (by decide)
  unfold pyStrip
  rw [hsl, hform, stripRight_concat_of_not_ws (by decide), ← hform]
  unfold footerLine
  exact isMarker_of_mem_prefix (m := ['-', '-', '-']) (by decide)
    (isPrefixOf_append _ (isPrefixOf_append _ (by decide)))

theorem pyStrip_numbered (i : Nat) {s : Line} (h : goodContent s = true) :
    pyStrip (fmt2 i ++ '.' :: ' ' :: s) = natChars i ++ '.' :: ' ' :: s := by
  obtain ⟨c, cs, hnc⟩ : ∃ c cs, natChars i = c :: cs := by
    cases hn : natChars i with
    | nil => exact absurd hn (natChars_ne_nil i)
    | cons c cs => exact ⟨c, cs, rfl⟩
  have hcd : c.isDigit = true := natChars_all_digit (n := i) c (by rw [hnc]; simp)
  have hcw : isWS c = false := not_ws_of_digit hcd
  have hsne : s ≠ [] := goodContent_ne_nil h
  obtain ⟨d, hd⟩ : ∃ d, s.getLast? = some d :=
    ⟨s.getLast hsne, List.getLast?_eq_getLast s hsne⟩
  have hdw : isWS d = false := goodContent_last h hd
  have hhead : (natChars i ++ '.' :: ' ' :: s).head? = some c := by
    rw [hnc]; rfl
  have hlastfull : (natChars i ++ '.' :: ' ' :: s).getLast? = some d := by
    have h1 : ('.' :: ' ' :: s : Line) = ['.', ' '] ++ s := rfl
    rw [List.getLast?_append, h1, List.getLast?_append, hd]
    rfl
  have hself : pyStrip (natChars i ++ '.' :: ' ' :: s) = natChars i ++ '.' :: ' ' :: s :=
    pyStrip_eq_self hhead hcw hlastfull hdw
  unfold fmt2
  by_cases h10 : i < 10
  · rw [if_pos h10]
    have hshape : ((' ' :: natChars i) ++ '.' :: ' ' :: s : Line)
        = ' ' :: (natChars i ++ '.' :: ' ' :: s) := rfl
    rw [hshape]
    unfold pyStrip
    rw [stripLeft_cons_ws (by decide)]
    unfold pyStrip at hself
    exact hself
  · rw [if_neg h10]
    exact hself

theorem processLine_numbered (i : Nat) {s : Line} (h : goodContent s = true) :
    processLine (fmt2 i ++ '.' :: ' ' :: s) = some s := by
  obtain ⟨c, cs, hnc⟩ : ∃ c cs, natChars i = c :: cs := by
    cases hn : natChars i with
    | nil => exact absurd hn (natChars_ne_nil i)
    | cons c cs => exact ⟨c, cs, rfl⟩
  have hcd : c.isDigit = true := natChars_all_digit (n := i) c (by rw [hnc]; simp)
  have hsplit : splitFirst (natChars i ++ '.' :: ' ' :: s) = some (natChars i, s) := by
    apply splitFirst_no_dot
    intro x hx hdot
    subst hdot
    exact absurd (natChars_all_digit (n := i) '.' hx) (by decide)
  have hdigits : isDigits (pyStrip (natChars i)) = true := by
    obtain ⟨d, hdl⟩ : ∃ d, (natChars i).getLast? = some d :=
      ⟨(natChars i).getLast (natChars_ne_nil i),
        List.getLast?_eq_getLast _ (natChars_ne_nil i)⟩
    have hdd : d.isDigit = true :=
      natChars_all_digit (n := i) d (List.mem_of_mem_getLast? (by simp [hdl]))
    have hps : pyStrip (natChars i) = natChars i :=
      pyStrip_eq_self (by rw [hnc]; rfl) (not_ws_of_digit hcd) hdl
        (not_ws_of_digit hdd)
    rw [hps]
    unfold isDigits
    rw [Bool.and_eq_true]
    constructor
    · rw [hnc]; rfl
    · rw [List.all_eq_true]
      exact natChars_all_digit
  have hne2 : (natChars i ++ '.' :: ' ' :: s).isEmpty = false := by
    rw [hnc]; rfl
  have hm : isMarker (natChars i ++ '.' :: ' ' :: s) = false := by
    rw [hnc]
    exact isMarker_cons_digit hcd
  unfold processLine
  rw [pyStrip_numbered i h]
  simp [hne2, hm, hsplit, hdigits]

theorem filterMap_numberLines (L : List Line) :
    ∀ i, (∀ s ∈ L, goodContent s = true) →
      List.filterMap processLine (numberLines i L) = L := by
  induction L with
  | nil => intro i _; rfl
  | cons s rest ih =>
    intro i h
    rw [numberLines, List.filterMap_cons_some (processLine_numbered i (h s (by simp)))]
    rw [ih (i + 1) (fun x hx => h x (by simp [hx]))]

theorem dropWhile_head?_false {p : Char → Bool} {l : Line} {a : Char}
    (h : (l.dropWhile p).head? = some a) : p a = false := by
  induction l with
  | nil => simp [List.dropWhile] at h
  | cons x xs ih =>
    rw [List.dropWhile_cons] at h
    by_cases hp : p x
    · rw [if_pos hp] at h; exact ih h
    · rw [if_neg hp] at h
      have hx : x = a := by simpa using h
      subst hx
      simpa using hp

theorem stripRight_getLast_not_ws {l : Line} {d : Char}
    (h : (stripRight l).getLast? = some d) : isWS d = false := by
  unfold stripRight at h
  rw [List.getLast?_reverse] at h
  exact dropWhile_head?_false h

theorem processLine_some_props {raw out : Line} (h : processLine raw = some out) :
    out ≠ [] ∧ ∀ d, out.getLast? = some d → isWS d = false := by
  unfold processLine at h
  by_cases he : (pyStrip raw).isEmpty
  · rw [if_pos he] at h; exact absurd h (by simp)
  · rw [if_neg he] at h
    have hne : pyStrip raw ≠ [] := by
      intro h0
      rw [h0] at he
      exact he rfl
    have hlp : ∀ d, (pyStrip raw).getLast? = some d → isWS d = false := by
      intro d hd
      exact stripRight_getLast_not_ws (l := stripLeft raw) hd
    by_cases hm : isMarker (pyStrip raw)
    · rw [if_pos hm] at h; exact absurd h (by simp)
    · rw [if_neg hm] at h
      cases hsf : splitFirst (pyStrip raw) with
      | none =>
        rw [hsf] at h
        dsimp only at h
        have hout : pyStrip raw = out := by simpa using h
        subst hout
        exact ⟨hne, hlp⟩
      | some p =>
        obtain ⟨a, b⟩ := p
        rw [hsf] at h
        dsimp only at h
        have heq := splitFirst_some hsf
        by_cases hdig : isDigits (pyStrip a)
        · rw [if_pos hdig] at h
          have hout : b = out := by simpa using h
          subst hout
          have hbne : b ≠ [] := by
            intro hb0
            subst hb0
            have hsp : (pyStrip raw).getLast? = some ' ' := by
              rw [heq, List.getLast?_append]
              rfl
            exact absurd (hlp ' ' hsp) (by decide)
          refine ⟨hbne, ?_⟩
          intro d hd
          apply hlp
          rw [heq]
          have hshape : ('.' :: ' ' :: b : Line) = ['.', ' '] ++ b := rfl
          rw [List.getLast?_append, hshape, List.getLast?_append, hd]
          rfl
        · rw [if_neg hdig] at h
          have hout : pyStrip raw = out := by simpa using h
          subst hout
          exact ⟨hne, hlp⟩

/-! ### Claim theorems: the writer / reader round trip -/

/-- C1, counterexample: the round trip fails as universally stated.  Writing
the single empty string produces the entry line `" 1. "`, which strips to
`"1."` and is returned verbatim as `"1."`; writing `"a "` (trailing space)
returns `"a"`.  So `read (write L)` is not `L` for every list of
newline-free strings. -/
theorem c1_roundtrip_counterexample :
    load_extracted_content (some (write_symbols_file [[]] [])) = [['1', '.']] ∧
    load_extracted_content (some (write_symbols_file ["a ".data] [])) = [['a']] ∧
    [['1', '.']] ≠ ([[]] : List Line) ∧ [['a']] ≠ (["a ".data] : List Line) :=
  ⟨by decide, by decide, by decide, by decide⟩

/-- C1, amended: for every ordered list `L` of strings that are non-empty,
contain no embedded newline and have no trailing whitespace, writing `L`
with either report writer (`_write_symbols_file` / `_write_mantras_file`)
and reading the file back with `_load_extracted_content` yields exactly `L`,
in order — for any timestamp text and any entry count (single-, double- or
more-digit numbering).  Leading whitespace on an entry is preserved by the
round trip and needs no restriction. -/
theorem c1_roundtrip (L : List Line) (ts ts' : Line)
    (h : ∀ s ∈ L, goodContent s = true) :
    load_extracted_content (some (write_symbols_file L ts)) = L ∧
    load_extracted_content (some (write_mantras_file L ts')) = L := by
  have hsuf1 : ("symboles ---".data : Line) = "symboles --".data ++ ['-'] := rfl
  have hsuf2 : ("éléments narratifs ---".data : Line) =
      "éléments narratifs --".data ++ ['-'] := rfl
  constructor
  · show (write_symbols_file L ts).filterMap processLine = L
    unfold write_symbols_file
    rw [List.filterMap_cons_none (by decide),
        List.filterMap_cons_none (by decide),
        List.filterMap_cons_none rfl,
        List.filterMap_cons_none (processLine_genLine ts),
        List.filterMap_cons_none rfl,
        List.filterMap_append,
        filterMap_numberLines L 1 h,
        hsuf1,
        List.filterMap_cons_none rfl,
        List.filterMap_cons_none (processLine_footerLine _ _)]
    simp
  · show (write_mantras_file L ts').filterMap processLine = L
    unfold write_mantras_file
    rw [List.filterMap_cons_none (by decide),
        List.filterMap_cons_none (by decide),
        List.filterMap_cons_none rfl,
        List.filterMap_cons_none (processLine_genLine ts'),
        List.filterMap_cons_none rfl,
        List.filterMap_append,
        filterMap_numberLines L 1 h,
        hsuf2,
        List.filterMap_cons_none rfl,
        List.filterMap_cons_none (processLine_footerLine _ _)]
    simp

/-- Witness for the amended round trip at a concrete list whose last entry
carries leading whitespace. -/
theorem c1_roundtrip_witness :
    load_extracted_content
        (some (write_symbols_file [['a'], "b c".data, [' ', 'x']] "2024-01-01".data)) =
      [['a'], "b c".data, [' ', 'x']] ∧
    load_extracted_content
        (some (write_mantras_file [['a'], "b c".data, [' ', 'x']] "2024-01-01".data)) =
      [['a'], "b c".data, [' ', 'x']] :=
  c1_roundtrip [['a'], "b c".data, [' ', 'x']] "2024-01-01".data "2024-01-01".data
    (by decide)

/-- C8: when the target file does not exist or cannot be read,
`_load_extracted_content` returns the empty list (both failure branches of
the source return `[]` rather than raising to the caller). -/
theorem c8_missing_file_empty : load_extracted_content none = [] := rfl

/-- C10, counterexample: a returned line can begin with a marker prefix and
can carry leading whitespace.  The file line `"1. = a"` is returned as
`"= a"` (which begins with the separator marker `"="`), and `"1.  x"` is
returned as `" x"` (leading whitespace). -/
theorem c10_reader_counterexample :
    load_extracted_content
        (some [['1', '.', ' ', '=', ' ', 'a'], ['1', '.', ' ', ' ', 'x']]) =
      [['=', ' ', 'a'], [' ', 'x']] ∧
    isMarker ['=', ' ', 'a'] = true ∧
    isWS ' ' = true :=
  ⟨by decide, by decide, by decide⟩

/-- C10, amended: for every file content, every line returned by
`_load_extracted_content` is non-empty and ends in a non-whitespace
character (no blank-line artifacts, no trailing whitespace); but after the
numbering prefix is stripped the remainder may itself begin with a marker
character or with whitespace. -/
theorem c10_reader_lines (file : List Line) (l : Line)
    (h : l ∈ load_extracted_content (some file)) :
    l ≠ [] ∧ ∀ d, l.getLast? = some d → isWS d = false := by
  unfold load_extracted_content at h
  obtain ⟨raw, _, hp⟩ := List.mem_filterMap.mp h
  exact processLine_some_props hp

/-- Witness for the amended reader invariant at a concrete file. -/
theorem c10_reader_lines_witness :
    ['a'] ≠ ([] : Line) ∧ ∀ d, (['a'] : Line).getLast? = some d → isWS d = false :=
  c10_reader_lines [" 1. a".data] ['a'] (by decide)

/-! ### Claim theorems: the fusion decoration -/

theorem glitchLoop_length (k : Nat) (l : List Line) :
    (glitchLoop k l).length = l.length := by
  induction l generalizing k with
  | nil => rfl
  | cons x xs ih => simp [glitchLoop, ih]

theorem glitchLoop_getD (k : Nat) (l : List Line) (i : Nat) (h : i < l.length) :
    (glitchLoop k l).getD i [] = glitchLine (k + i) (l.getD i []) := by
  induction l generalizing k i with
  | nil => simp at h
  | cons x xs ih =>
    cases i with
    | zero => simp [glitchLoop]
    | succ j =>
      have hj : j < xs.length := by simpa using h
      simp only [glitchLoop, List.getD_cons_succ]
      rw [ih (k + 1) j hj]
      have harith : k + 1 + j = k + (j + 1) := by omega
      rw [harith]

theorem glitchLine_eq_specDecorate (i : Nat) (line : Line) :
    glitchLine i line = specDecorate i line := by
  have h4 : i % 4 = 0 ∨ i % 4 = 1 ∨ i % 4 = 2 ∨ i % 4 = 3 := by omega
  rcases h4 with h | h | h | h <;>
    simp [glitchLine, specDecorate, glitchCluster, h]

/-- C2: on any post-shuffle sequence, the decoration at 0-based index `i` is
deterministic and selects its rule by `i mod 4` over the fixed 8-glyph
vocabulary, exactly as the specification's four rules state (wrap for
`i % 4 = 0`, glyph cluster of size `i % 3 + 1` for `i % 4 = 1`, trailing
glyph at `(-i) mod 8` for `i % 4 = 2`, midpoint insertion only for lines of
more than two words for `i % 4 = 3`). -/
theorem c2_decoration_rules (content : List Line) (i : Nat) (h : i < content.length) :
    (create_glitched_fusion content).getD i [] = specDecorate i (content.getD i []) := by
  have hne : content.isEmpty = false := by
    cases content
    · simp at h
    · rfl
  unfold create_glitched_fusion
  rw [hne]
  simp only [Bool.false_eq_true, if_false]
  rw [glitchLoop_getD 0 content i h, Nat.zero_add]
  exact glitchLine_eq_specDecorate i _

/-- Witness for the decoration-rule theorem at a concrete one-entry list. -/
theorem c2_decoration_rules_witness :
    (create_glitched_fusion [['a']]).getD 0 [] =
      specDecorate 0 (([['a']] : List Line).getD 0 []) :=
  c2_decoration_rules [['a']] 0 (by decide)

/-- C3: fusing nothing yields nothing; the fusion of any shuffle of the
combined inputs has exactly `len symbols + len mantras` entries; and for the
inputs `["s1"]` and `["m1"]`, whatever order the shuffle produced, the result
is exactly 2 decorated lines, each non-empty and containing its original
entry (`"s1"` or `"m1"`) as a contiguous substring. -/
theorem c3_fuse_totality :
    create_glitched_fusion [] = [] ∧
    (∀ sym man shuffled : List Line, shuffled.Perm (sym ++ man) →
      (create_glitched_fusion shuffled).length = sym.length + man.length) ∧
    (∀ shuffled : List Line, shuffled.Perm ["s1".data, "m1".data] →
      (create_glitched_fusion shuffled).length = 2 ∧
      ∀ l ∈ create_glitched_fusion shuffled,
        l ≠ [] ∧ (List.IsInfix "s1".data l ∨ List.IsInfix "m1".data l)) := by
  refine ⟨rfl, ?_, ?_⟩
  · intro sym man shuffled hperm
    have hlen := hperm.length_eq
    rw [List.length_append] at hlen
    unfold create_glitched_fusion
    by_cases hs : shuffled.isEmpty
    · rw [if_pos hs]
      cases shuffled with
      | nil => exact hlen
      | cons x xs => simp at hs
    · rw [if_neg hs]
      rw [glitchLoop_length]
      exact hlen
  · intro shuffled hperm
    have hlen := hperm.length_eq
    obtain ⟨x, y, rfl⟩ : ∃ x y, shuffled = [x, y] := by
      cases shuffled with
      | nil => simp at hlen
      | cons x rest =>
        cases rest with
        | nil => simp at hlen
        | cons y rest2 =>
          cases rest2 with
          | nil => exact ⟨x, y, rfl⟩
          | cons z r3 => simp at hlen
    have hx : x ∈ ["s1".data, "m1".data] := hperm.subset (by simp)
    rcases (by simpa using hx : x = "s1".data ∨ x = "m1".data) with hx1 | hx1
    · subst hx1
      have hy : y = "m1".data := by
        have h2 := hperm.cons_inv
        simpa using List.perm_singleton.mp h2
      subst hy
      exact ⟨by decide, by decide⟩
    · subst hx1
      have hy : y = "s1".data := by
        have hswap : (["s1".data, "m1".data] : List Line).Perm ["m1".data, "s1".data] :=
          List.Perm.swap _ _ _
        have h2 := (hperm.trans hswap).cons_inv
        simpa using List.perm_singleton.mp h2
      subst hy
      exact ⟨by decide, by decide⟩

/-- Witness for fuse totality at a concrete shuffle of the two entries. -/
theorem c3_fuse_totality_witness :
    (create_glitched_fusion ["m1".data, "s1".data]).length = 2 :=
  (c3_fuse_totality.2.2 ["m1".data, "s1".data]
    (List.Perm.swap _ _ _)).1

/-! ### Claim theorems: the gatherers -/

theorem primBeq_symm (a b : JValue) : primBeq a b = primBeq b a := by
  cases a <;> cases b <;> first
    | rfl
    | exact decide_eq_decide.mpr ⟨fun h => h.symm, fun h => h.symm⟩

theorem filter_notSeen_cons (x : JValue) (seen xs : List JValue) :
    xs.filter (fun y => !(x :: seen).any (primBeq y)) =
      (xs.filter (fun y => !seen.any (primBeq y))).filter (fun y => !primBeq x y) := by
  rw [List.filter_filter]
  apply List.filter_congr
  intro y _
  simp [List.any_cons, primBeq_symm x y, Bool.and_comm]

theorem gatherDedup_eq_specDedup (l : List JValue) :
    ∀ seen, (∀ x ∈ l, pyHashable x = true) →
      gatherDedup seen l =
        .ok (specDedup (l.filter (fun y => !seen.any (primBeq y)))) := by
  induction l with
  | nil => intro seen _; simp [gatherDedup, specDedup]
  | cons x xs ih =>
    intro seen hh
    have hx : pyHashable x = true := hh x (by simp)
    have hxs : ∀ z ∈ xs, pyHashable z = true := fun z hz => hh z (by simp [hz])
    rw [gatherDedup, if_pos hx, List.filter_cons]
    by_cases hs : seen.any (primBeq x)
    · rw [if_pos hs, ih seen hxs]
      rw [if_neg (by simp [hs])]
    · rw [if_neg hs, ih (x :: seen) hxs]
      rw [if_pos (by simp [hs])]
      rw [specDedup, filter_notSeen_cons]

/-- C4: `_gather_all_symbols` reads the symbolic section's symbols and
aesthetic-techniques lists, concatenates them in that order, and
deduplicates by exact value preserving first-seen order (stated against the
independent first-occurrence recursion `specDedup`); in particular symbols
`["a","b","a","c"]` with no aesthetic techniques gather to `["a","b","c"]`. -/
theorem c4_gather_symbols (xs ys : List JValue)
    (h : ∀ v ∈ xs ++ ys, pyHashable v = true) :
    gather_all_symbols (symDoc xs ys) = .ok (specDedup (xs ++ ys)) ∧
    gather_all_symbols
        (symDoc [.str ['a'], .str ['b'], .str ['a'], .str ['c']] []) =
      .ok [.str ['a'], .str ['b'], .str ['c']] := by
  constructor
  · have hred : gather_all_symbols (symDoc xs ys) = gatherDedup [] (xs ++ ys) := rfl
    rw [hred, gatherDedup_eq_specDedup (xs ++ ys) [] h]
    simp
  · rfl

/-- Witness for the symbol gatherer at the concrete duplicated input. -/
theorem c4_gather_symbols_witness :
    gather_all_symbols
        (symDoc [.str ['a'], .str ['b'], .str ['a'], .str ['c']] []) =
      .ok [.str ['a'], .str ['b'], .str ['c']] :=
  (c4_gather_symbols [.str ['a'], .str ['b'], .str ['a'], .str ['c']] []
    (by decide)).2

/-- C5: `_gather_all_mantras` returns the mantras list verbatim (duplicates
preserved), appends one `[ARCHETYPE]` line iff the archetype string is
non-empty, then one `[TECHNIQUE]` line per technique in source order; for
mantras `["x","x"]`, archetype `""` and no techniques the result is exactly
`["x","x"]`. -/
theorem c5_gather_mantras (ms : List JValue) (a : List Char) (ts : List JValue) :
    gather_all_mantras (narDoc ms a ts) =
      .ok (ms ++ ((if a.isEmpty then [] else [.str ("[ARCHETYPE] ".data ++ a)]) ++
        ts.map (fun t => .str ("[TECHNIQUE] ".data ++ pyStrOf t)))) ∧
    gather_all_mantras (narDoc [.str ['x'], .str ['x']] [] []) =
      .ok [.str ['x'], .str ['x']] := by
  constructor
  · cases a with
    | nil => rfl
    | cons c cs =>
      have hred : gather_all_mantras (narDoc ms (c :: cs) ts) =
          .ok ((ms ++ [.str ("[ARCHETYPE] ".data ++ (c :: cs))]) ++
            ts.map (fun t => .str ("[TECHNIQUE] ".data ++ pyStrOf t))) := rfl
      rw [hred]
      simp [List.append_assoc]
  · rfl

/-! ### Claim theorems: the orchestrator -/

/-- C6: the orchestrator attempts all three stages unconditionally — the
executed trace is always symbols, mantras, chant, whatever each outcome — and
reports overall success iff all three stage outcomes are success. -/
theorem c6_ritual_no_short_circuit (outcome : Stage → Bool) :
    (run_complete_ritual outcome).1.executed = [.symbols, .mantras, .chant] ∧
    ((run_complete_ritual outcome).2 = true ↔
      outcome .symbols = true ∧ outcome .mantras = true ∧ outcome .chant = true) := by
  cases h1 : outcome .symbols <;> cases h2 : outcome .mantras <;>
    cases h3 : outcome .chant <;>
      simp [run_complete_ritual, runStep, h1, h2, h3]

/-! ### Claim theorems: error handling of the extraction stages -/

theorem all_str_hashable {xs : List JValue}
    (h : (xs.all (fun v => match v with | .str _ => true | _ => false)) = true) :
    ∀ v ∈ xs, pyHashable v = true := by
  intro v hv
  have hv2 := List.all_eq_true.mp h v hv
  cases v <;> simp_all [pyHashable]

theorem strListOpt_iter {o : Option JValue} (h : isStrListOpt o = true) :
    ∃ xs, pyIter (o.getD (.list [])) = .ok xs ∧ ∀ v ∈ xs, pyHashable v = true := by
  cases o with
  | none => exact ⟨[], rfl, by simp⟩
  | some v =>
    cases v with
    | list xs =>
      refine ⟨xs, rfl, ?_⟩
      exact all_str_hashable (by simpa [isStrListOpt] using h)
    | str s => simp [isStrListOpt] at h
    | num n => simp [isStrListOpt] at h
    | obj fs => simp [isStrListOpt] at h

theorem gather_all_symbols_ok_of_wellTyped {fields : List (List Char × JValue)}
    (h : wellTypedDoc (.obj fields) = true) :
    ∃ r, gather_all_symbols (.obj fields) = .ok r := by
  have h1 : (match lookupField fields kSymbolicAnalysis with
      | none => true
      | some (.obj sf) =>
        isStrListOpt (lookupField sf kSymbols) &&
        isStrListOpt (lookupField sf kAesthetic)
      | some _ => false) = true := by
    simp only [wellTypedDoc, Bool.and_eq_true] at h
    exact h.1
  cases hsa : lookupField fields kSymbolicAnalysis with
  | none =>
    refine ⟨[], ?_⟩
    simp only [gather_all_symbols, pyGet, hsa, Option.getD]
    rfl
  | some sa =>
    rw [hsa] at h1
    cases sa with
    | str s => simp at h1
    | num n => simp at h1
    | list l => simp at h1
    | obj sf =>
      have h2 : isStrListOpt (lookupField sf kSymbols) = true ∧
          isStrListOpt (lookupField sf kAesthetic) = true := by
        simpa [Bool.and_eq_true] using h1
      obtain ⟨xs, hxs, hxsh⟩ := strListOpt_iter h2.1
      obtain ⟨ys, hys, hysh⟩ := strListOpt_iter h2.2
      refine ⟨specDedup ((xs ++ ys).filter
        (fun y => !([] : List JValue).any (primBeq y))), ?_⟩
      simp only [gather_all_symbols, pyGet, hsa, Option.getD_some, hxs, hys]
      rw [gatherDedup_eq_specDedup (xs ++ ys) []
        (fun v hv => (List.mem_append.mp hv).elim (hxsh v) (hysh v))]

theorem gather_all_mantras_ok_of_wellTyped {fields : List (List Char × JValue)}
    (h : wellTypedDoc (.obj fields) = true) :
    ∃ r, gather_all_mantras (.obj fields) = .ok r := by
  have h1 : (match lookupField fields kNarrative with
      | none => true
      | some (.obj nf) =>
        isStrListOpt (lookupField nf kMantras) &&
        isStrOpt (lookupField nf kArchetype) &&
        isStrListOpt (lookupField nf kTechniques)
      | some _ => false) = true := by
    simp only [wellTypedDoc, Bool.and_eq_true] at h
    exact h.2
  cases hna : lookupField fields kNarrative with
  | none =>
    refine ⟨[], ?_⟩
    simp only [gather_all_mantras, pyGet, hna, Option.getD]
    rfl
  | some na =>
    rw [hna] at h1
    cases na with
    | str s => simp at h1
    | num n => simp at h1
    | list l => simp at h1
    | obj nf =>
      have h2 : isStrListOpt (lookupField nf kMantras) = true ∧
          isStrOpt (lookupField nf kArchetype) = true ∧
          isStrListOpt (lookupField nf kTechniques) = true := by
        simpa [Bool.and_eq_true, and_assoc] using h1
      obtain ⟨ms, hms, _⟩ := strListOpt_iter h2.1
      obtain ⟨ts, hts, _⟩ := strListOpt_iter h2.2.2
      refine ⟨(if pyTruthy ((lookupField nf kArchetype).getD (.str [])) then
          ms ++ [.str ("[ARCHETYPE] ".data ++
            pyStrOf ((lookupField nf kArchetype).getD (.str [])))]
        else ms) ++
        ts.map (fun t => .str ("[TECHNIQUE] ".data ++ pyStrOf t)), ?_⟩
      simp only [gather_all_mantras, pyGet, hna, Option.getD_some, hms, hts]

/-- C7, counterexample: a loaded document whose `symbolic_analysis` field is
present but is a string (not a dict) makes `extract_symbols` raise
`AttributeError` out of the stage — the failure is not caught and converted
into a boolean, so the orchestrator and CLI would crash on it. -/
theorem c7_counterexample :
    extract_symbols (some (.obj [(kSymbolicAnalysis, .str ['x'])])) true =
      .error .attributeError := rfl

/-- C7, amended: the stages catch document-load failures and file-write
failures internally and return booleans (a `none` load and a failed write
both yield `.ok false`/`.ok` of the write outcome, never an exception), and
on any well-typed document (fields absent or of the documented list / dict /
string shapes) no exception escapes `extract_symbols` or `extract_mantras`;
but wrongly-typed fields do raise, per the counterexample. -/
theorem c7_stage_error_policy (loaded : Option JValue) (w1 w2 : Bool)
    (h : ∀ d, loaded = some d → wellTypedDoc d = true) :
    (∃ b, extract_symbols loaded w1 = .ok b) ∧
    (∃ b, extract_mantras loaded w2 = .ok b) := by
  cases loaded with
  | none => exact ⟨⟨false, rfl⟩, ⟨false, rfl⟩⟩
  | some data =>
    have hw : wellTypedDoc data = true := h data rfl
    have hobj : ∃ fields, data = .obj fields := by
      cases data with
      | obj fields => exact ⟨fields, rfl⟩
      | str s => simp [wellTypedDoc] at hw
      | num n => simp [wellTypedDoc] at hw
      | list l => simp [wellTypedDoc] at hw
    obtain ⟨fields, rfl⟩ := hobj
    constructor
    · by_cases ht : pyTruthy (JValue.obj fields)
      · obtain ⟨r, hr⟩ := gather_all_symbols_ok_of_wellTyped hw
        refine ⟨if r.isEmpty then false else w1, ?_⟩
        simp only [extract_symbols, ht, Bool.not_true, hr]
        by_cases hre : r.isEmpty <;> simp [hre]
      · refine ⟨false, ?_⟩
        simp only [extract_symbols]
        rw [if_pos (by simp [Bool.not_eq_true'] at ht ⊢; exact ht)]
    · by_cases ht : pyTruthy (JValue.obj fields)
      · obtain ⟨r, hr⟩ := gather_all_mantras_ok_of_wellTyped hw
        refine ⟨if r.isEmpty then false else w2, ?_⟩
        simp only [extract_mantras, ht, Bool.not_true, hr]
        by_cases hre : r.isEmpty <;> simp [hre]
      · refine ⟨false, ?_⟩
        simp only [extract_mantras]
        rw [if_pos (by simp [Bool.not_eq_true'] at ht ⊢; exact ht)]

/-- Witness for the stage error policy at a concrete well-typed document. -/
theorem c7_stage_error_policy_witness :
    (∃ b, extract_symbols (some (symDoc [.str ['a']] [])) true = .ok b) ∧
    (∃ b, extract_mantras (some (symDoc [.str ['a']] [])) true = .ok b) :=
  c7_stage_error_policy (some (symDoc [.str ['a']] [])) true true
    (by intro d hd; cases hd; rfl)

/-! ### Claim theorems: the fusion frame property -/

/-- C9: `_create_glitched_fusion` does not mutate its caller's list: it
copies the content into a fresh cell and shuffles only the copy, so every
list object that existed in the heap before the call — the combined content
list, and hence the symbol and mantra lists it was built from — holds the
same value afterwards. -/
theorem c9_fusion_frame (h : Heap) (contentRef : Nat)
    (shuffleOf : List Line → List Line) (r : Nat) (hr : r < h.length) :
    (create_glitched_fusion_heap h contentRef shuffleOf).1.getD r [] =
      h.getD r [] := by
  unfold create_glitched_fusion_heap
  by_cases he : (h.getD contentRef []).isEmpty
  · rw [if_pos he]
  · rw [if_neg he]
    dsimp only
    have hne : h.length ≠ r := by omega
    rw [List.getD_eq_getElem?_getD, List.getElem?_set_ne hne,
      List.getElem?_append, if_pos hr, ← List.getD_eq_getElem?_getD]

/-- Witness for the frame property at a concrete one-cell heap. -/
theorem c9_fusion_frame_witness :
    (create_glitched_fusion_heap [[['a']]] 0 id).1.getD 0 [] =
      ([[['a']]] : Heap).getD 0 [] :=
  c9_fusion_frame [[['a']]] 0 id 0 (by decide)

end Fractura
